import Mathlib

/-!
Verification development for the tee-time reservation bot
(`reserve-teetime.mjs`).  The JavaScript source is shallowly embedded:
strings are modelled as `List Char` (JS strings are sequences of UTF-16
code units; every string handled here is ASCII), numbers as `Nat`/`Int`,
`NaN` as `Option.none`, and the Playwright-driven main loop as an
explicit environment-indexed state recursion.
-/

namespace TeeTime

/-- JS strings, modelled as lists of characters. -/
abbrev Str := List Char

/-- Character class `\d` of the source's regexes (ASCII decimal digit). -/
def isDigitCh (c : Char) : Bool := 48 ≤ c.toNat && c.toNat ≤ 57

/-- Character class `\s` restricted to the ASCII whitespace characters
(space, tab, line feed, vertical tab, form feed, carriage return); the
full JS class also holds exotic Unicode spaces that never occur in the
tee-sheet text this program reads. -/
def isSpaceCh (c : Char) : Bool :=
  c.toNat = 32 || c.toNat = 9 || c.toNat = 10 || c.toNat = 11 || c.toNat = 12 || c.toNat = 13

/-- Character class `[AaPp]` (the `[AP]` of the regex under the `i` flag). -/
def isApCh (c : Char) : Bool :=
  c.toNat = 65 || c.toNat = 97 || c.toNat = 80 || c.toNat = 112

/-- `P` or `p`: the captured meridiem passes `/pm/i.test`. -/
def isPCh (c : Char) : Bool := c.toNat = 80 || c.toNat = 112

/-- Character class `[Mm]` (the `M` of the regex under the `i` flag). -/
def isMCh (c : Char) : Bool := c.toNat = 77 || c.toNat = 109

/-- `String.prototype.trim`: strip whitespace from both ends. -/
def trim (s : Str) : Str :=
  ((s.dropWhile isSpaceCh).reverse.dropWhile isSpaceCh).reverse

/-- `String.prototype.split(":")` (the separator is a single character
here, so no overlap subtleties arise).  Always returns at least one
piece, like in JS. -/
def splitOnCh (c : Char) : Str → List Str
  | [] => [[]]
  | x :: xs =>
    if x.toNat = c.toNat then
      [] :: splitOnCh c xs
    else
      match splitOnCh c xs with
      | s :: rest => (x :: s) :: rest
      | [] => [[x]]

/-- Model of JS `Number(piece)` on the string pieces produced by
splitting `"HH:MM"`-shaped configuration text at `":"`: the empty string
converts to `0` (JS semantics) and a nonempty all-digit string converts
to its decimal value; every other piece is `NaN`, modelled as `none`.
(Signs, blanks, decimals and exponents never reach this conversion in
the program and are left out of the model.) -/
def jsNumber (s : Str) : Option Nat :=
  if s = [] then some 0
  else if s.all isDigitCh then
    some (s.foldl (fun a c => a * 10 + (c.toNat - 48)) 0)
  else none

/-- `toMin` from the source: split at `":"`, convert the first two
pieces with `Number`, return `h * 60 + m`.  When the string has no `":"`
the minute component is `undefined`, so the JS arithmetic yields `NaN`
(`none` here); likewise when either piece fails to convert. -/
def toMin (hhmm : Str) : Option Nat :=
  match (splitOnCh ':' hhmm).map jsNumber with
  | h :: m :: _ =>
    match h, m with
    | some h, some m => some (h * 60 + m)
    | _, _ => none
  | _ => none

/-- `timeInRange` from the source: `t >= s && t <= e` under JS `NaN`
semantics — any comparison against `NaN` is false, so the whole
conjunction is false as soon as any of the three strings fails to
convert. -/
def timeInRange (hhmm start_ end_ : Str) : Bool :=
  match toMin hhmm, toMin start_, toMin end_ with
  | some t, some s, some e => decide (s ≤ t) && decide (t ≤ e)
  | _, _, _ => false

/-- The capture state of a successful match of the source regex
`(\d{1,2}):(\d{2})\s*([AP]M)` (case-insensitive): hour digits, minute
digits, the whitespace run consumed by `\s*`, the meridiem letter and
the final `M`/`m`. -/
structure TimeCaps where
  hh : Str
  mm : Str
  sp : Str
  ap : Char
  mc : Char
deriving DecidableEq, Repr

/-- The full text matched by the regex (group 1 of the `findCandidates`
regex is the whole pattern). -/
def capsTok (c : TimeCaps) : Str :=
  c.hh ++ ':' :: (c.mm ++ c.sp ++ [c.ap, c.mc])

/-- Matcher for the tail `:(\d{2})\s*([AP]M)` of the regex, entered
after the hour digits have been consumed. -/
def matchTail (hh : Str) : Str → Option TimeCaps
  | ':' :: d1 :: d2 :: rest =>
    if isDigitCh d1 && isDigitCh d2 then
      match rest.dropWhile isSpaceCh with
      | a :: m :: _ =>
        if isApCh a && isMCh m then
          some ⟨hh, [d1, d2], rest.takeWhile isSpaceCh, a, m⟩
        else none
      | _ => none
    else none
  | _ => none

/-- One attempt of the regex at a fixed start position.  `\d{1,2}` is
greedy with backtracking: two hour digits are tried first, then one. -/
def matchTimeAt : Str → Option TimeCaps
  | [] => none
  | c0 :: rest =>
    if isDigitCh c0 then
      match rest with
      | [] => none
      | c1 :: rest2 =>
        if isDigitCh c1 then
          match matchTail [c0, c1] rest2 with
          | some caps => some caps
          | none => matchTail [c0] (c1 :: rest2)
        else matchTail [c0] (c1 :: rest2)
    else none

/-- `String.prototype.match` with the time regex: leftmost match wins —
scan start positions from the left, at each one running the
backtracking attempt. -/
def scanTime : Str → Option TimeCaps
  | [] => none
  | c :: rest =>
    match matchTimeAt (c :: rest) with
    | some caps => some caps
    | none => scanTime rest

/-- `parseInt(digits, 10)` on a captured digit group. -/
def digitsToNat (s : Str) : Nat :=
  s.foldl (fun a c => a * 10 + (c.toNat - 48)) 0

/-- `String(n)` for a natural number. -/
def natToStr (n : Nat) : Str := Nat.toDigits 10 n

/-- `String.prototype.padStart(2, "0")`. -/
def padStart2 (s : Str) : Str :=
  if s.length = 0 then ['0', '0']
  else if s.length = 1 then '0' :: s
  else s

/-- `normalizeTimeLabel` from the source: trim, match the 12-hour
regex, and rebuild `"HH:MM"`.  The two conversion steps mirror the
source exactly: `pm` (meridiem letter `P`/`p`) with hour `≠ 12` adds
12; `am` with hour `12` becomes 0.  No match yields the empty string. -/
def normalizeTimeLabel (label : Str) : Str :=
  match scanTime (trim label) with
  | none => []
  | some caps =>
    let h := digitsToNat caps.hh
    let isP := isPCh caps.ap
    let h1 := if isP && decide (h ≠ 12) then h + 12 else h
    let h2 := if !isP && decide (h1 = 12) then 0 else h1
    padStart2 (natToStr h2) ++ ':' :: caps.mm

/-- `toLowerCase` on an ASCII string. -/
def lcase (s : Str) : Str := s.map Char.toLower

/-- `String.prototype.includes` (substring containment). -/
def containsSub (hay needle : Str) : Bool :=
  if needle.isPrefixOf hay then true
  else
    match hay with
    | [] => false
    | _ :: t => containsSub t needle

/-- The `en-US` short weekday name, as produced by
`toLocaleDateString(… weekday: "short" …)`.  Dates are modelled as day
numbers counted in the configured timezone, anchored so that day 0 is a
Sunday; adding one day advances the weekday by one. -/
def weekdayShort (d : Nat) : Str :=
  match d % 7 with
  | 0 => "Sun".toList
  | 1 => "Mon".toList
  | 2 => "Tue".toList
  | 3 => "Wed".toList
  | 4 => "Thu".toList
  | 5 => "Fri".toList
  | _ => "Sat".toList

/-- The preference test of `nextWeekendDates`:
`cfg.preferredDays.some(x => dow.toLowerCase().startsWith(x.toLowerCase()))`. -/
def dayMatches (prefs : List Str) (d : Nat) : Bool :=
  prefs.any fun x => (lcase x).isPrefixOf (lcase (weekdayShort d))

/-- `nextWeekendDates` from the source: scan the 14 days starting at
`now`, keep those whose short weekday name starts with a configured
preference, and keep only the first two (`out.slice(0, 2)`). -/
def nextWeekendDates (prefs : List Str) (now : Nat) : List Nat :=
  ((((List.range 14).map fun i => now + i).filter
    fun d => dayMatches prefs d).take 2)

/-- Line 360 of the source: `const targets = forced ? [forced] :
nextWeekendDates();`.  `forced` is the (already parsed and validated)
`TARGET_DATE` override, `none` when absent or unparsable. -/
def targets (forced : Option Nat) (prefs : List Str) (now : Nat) : List Nat :=
  match forced with
  | some f => [f]
  | none => nextWeekendDates prefs now

/-- `msUntilCT` from the source.  `nowCTms` is the current wall-clock
time in the configured timezone, in milliseconds since that day's
midnight (the locale round-trip `new Date(now.toLocaleString(tz))`
produces exactly this wall clock); `setHours(hour, minute, 0, 0)`
places the target at the same day's `hour:minute`, `delta` is the
signed difference and the result clamps at 0. -/
def msUntilCT (hour minute : Nat) (nowCTms : Nat) : Nat :=
  let tgt : Int := (hour : Int) * 3600000 + (minute : Int) * 60000
  let delta : Int := tgt - (nowCTms : Int)
  (max 0 delta).toNat

/-- Lines 347–357 of the source: the alignment pause runs exactly when
`ms > 0 && ms < 120000`. -/
def alignWaitApplies (ms : Nat) : Bool :=
  decide (0 < ms) && decide (ms < 120000)

/-- One result row of the tee sheet, as `findCandidates` observes it:
its inner text, the number of elements matching the Add To Cart
locator, and an opaque identifier standing for the Add To Cart
locator object captured from this row (`addBtn.first()`). -/
structure Row where
  txt : Str
  addBtnCount : Nat
  btnId : Nat
deriving DecidableEq, Repr

/-- One entry of the `hits` array built by `findCandidates`:
`{ t: t24, row: r, addBtn: addBtn.first(), rawText: txt }` (the row
reference itself is dropped from the model; `addBtn` is the opaque
locator identifier). -/
structure Hit where
  t : Str
  addBtn : Nat
  rawText : Str
deriving DecidableEq, Repr

/-- The row loop of `findCandidates` (lines 259–271): trim the row
text, require the course name as a substring, find the first
`(\d{1,2}:\d{2}\s*[ap]m)` token, normalize it, require it inside the
configured window, and require an Add To Cart affordance; qualifying
rows are collected in listing order. -/
def collectHits (cn ws we : Str) : List Row → List Hit
  | [] => []
  | r :: rest =>
    let tail := collectHits cn ws we rest
    let txt := trim r.txt
    if txt = [] then tail
    else if !(containsSub txt cn) then tail
    else
      match scanTime txt with
      | none => tail
      | some caps =>
        let t24 := normalizeTimeLabel (capsTok caps)
        if t24 = [] then tail
        else if !(timeInRange t24 ws we) then tail
        else if decide (0 < r.addBtnCount) then ⟨t24, r.btnId, txt⟩ :: tail
        else tail

/-- Lexicographic code-unit comparison of ASCII strings; this is the
order `a.t.localeCompare(b.t) <= 0` induces on the `"HH:MM"` labels
(digits and `":"` collate in code-unit order under the default
locale). -/
def lexLe : Str → Str → Bool
  | [], _ => true
  | _ :: _, [] => false
  | a :: as, b :: bs =>
    if a.toNat = b.toNat then lexLe as bs else decide (a.toNat < b.toNat)

/-- The sort order used by `hits.sort((a, b) => a.t.localeCompare(b.t))`. -/
def hitLe (a b : Hit) : Prop := lexLe a.t b.t = true

instance : DecidableRel hitLe := fun a b =>
  inferInstanceAs (Decidable (lexLe a.t b.t = true))

/-- `findCandidates` from the source: collect qualifying rows, then
sort by the time label.  `Array.prototype.sort` is stable, and a stable
sort under a total preorder is unique, so it is modelled by insertion
sort. -/
def findCandidates (cn ws we : Str) (rows : List Row) : List Hit :=
  List.insertionSort hitLe (collectHits cn ws we rows)

/-- Outcome of one iteration of the Add To Cart retry loop (lines
383–413), as the external surface decides it: the committing click
landed and a success signal was observed (`secured`), the click landed
but neither success signal was present (`lostRace`), or the click
itself threw before committing and the `catch` branch ran (`threw`). -/
inductive AttemptResult
  | secured
  | lostRace
  | threw
deriving DecidableEq, Repr

/-- Observable summary of one run of the retry loop: how many
committing Add To Cart clicks were issued, whether a success signal was
verified (`added`), and which affordance handle each iteration used
(in order). -/
structure ClaimStats where
  clicks : Nat
  added : Bool
  handleUses : List Nat
deriving DecidableEq, Repr

/-- The body of `for (let i = 0; i < 3; i++)`: every iteration clicks
`best.addBtn` — the handle captured by `findCandidates` — and a
verified success breaks out of the loop. -/
def claimSeqGo (handle : Nat) (att : Nat → AttemptResult) : Nat → Nat → ClaimStats
  | 0, _ => ⟨0, false, []⟩
  | fuel + 1, i =>
    match att i with
    | .secured => ⟨1, true, [handle]⟩
    | .lostRace =>
      let s := claimSeqGo handle att fuel (i + 1)
      ⟨s.clicks + 1, s.added, handle :: s.handleUses⟩
    | .threw =>
      let s := claimSeqGo handle att fuel (i + 1)
      ⟨s.clicks, s.added, handle :: s.handleUses⟩

/-- The whole retry loop: at most 3 iterations, starting at attempt 0. -/
def claimSeq (handle : Nat) (att : Nat → AttemptResult) : ClaimStats :=
  claimSeqGo handle att 3 0

/-- The environment's behaviour for one target date within one pass:
the result rows the search returns, the per-iteration outcome of the
claim attempts on the chosen best slot, and the wall-clock time (in
abstract ticks) the date's search-and-claim processing consumes. -/
structure DateEnv where
  rows : List Row
  att : Nat → AttemptResult
  cost : Nat

/-- The environment's behaviour for one pass of the poll loop: one
`DateEnv` per target date, plus the jittered reload delay that follows
an unsuccessful pass. -/
structure PassEnv where
  dates : List DateEnv
  jitter : Nat

/-- The `for (const d of targets)` body (lines 370–428): search the
date, take the first hit if any, run the claim retry loop on it; a
verified success ends the pass immediately (`booked = true; break`),
otherwise move on to the next date.  Returns whether the pass booked
and how many committing clicks it issued. -/
def processPass (cn ws we : Str) : List DateEnv → Bool × Nat
  | [] => (false, 0)
  | de :: rest =>
    match findCandidates cn ws we de.rows with
    | [] => processPass cn ws we rest
    | best :: _ =>
      let s := claimSeq best.addBtn de.att
      if s.added then (true, s.clicks)
      else
        let r := processPass cn ws we rest
        (r.1, s.clicks + r.2)

/-- Wall-clock cost of one unsuccessful pass: its dates' processing
plus the jittered delay, and at least one tick — a real pass always
consumes positive time. -/
def passCost (pe : PassEnv) : Nat :=
  1 + pe.jitter + (pe.dates.map DateEnv.cost).sum

/-- Observable summary of a whole run of the poll loop: whether a slot
was booked, the total number of committing Add To Cart clicks, how many
completion beeps were emitted, whether the exhausted message
("No matching tee times found within search window.") was printed, the
elapsed ticks when the loop exited, and how many passes ran. -/
structure RunStats where
  booked : Bool
  clicks : Nat
  beeps : Nat
  exhaustedMsg : Bool
  elapsed : Nat
  passes : Nat
deriving DecidableEq, Repr

/-- The `while (!booked && Date.now() - start < cfg.searchSeconds *
1000)` loop (lines 366–436).  The deadline is tested at the top of
every pass; an unsuccessful pass advances the clock by its cost.  The
structural `fuel` only bounds the recursion: since every pass costs at
least one tick, `budget + 1` units of fuel are never exhausted before
the deadline test fires, and the fuel-out branch returns the same
exhausted result as the deadline branch. -/
def pollGo (cn ws we : Str) (env : Nat → PassEnv) (budget : Nat) :
    Nat → Nat → Nat → Nat → RunStats
  | 0, p, elapsed, clicks => ⟨false, clicks, 0, true, elapsed, p⟩
  | fuel + 1, p, elapsed, clicks =>
    if budget ≤ elapsed then ⟨false, clicks, 0, true, elapsed, p⟩
    else
      let pe := env p
      let r := processPass cn ws we pe.dates
      if r.1 then ⟨true, clicks + r.2, 1, false, elapsed, p + 1⟩
      else pollGo cn ws we env budget fuel (p + 1) (elapsed + passCost pe) (clicks + r.2)

/-- The full poll loop with its clock started at 0. -/
def pollLoop (cn ws we : Str) (env : Nat → PassEnv) (budget : Nat) : RunStats :=
  pollGo cn ws we env budget (budget + 1) 0 0 0

/-- Cumulative cost of the first `q` passes of an environment. -/
def spentThrough (env : Nat → PassEnv) : Nat → Nat
  | 0 => 0
  | q + 1 => spentThrough env q + passCost (env q)

/-- Canonical rendering of a well-formed 12-hour clock token
`H:MM am|pm` (hour unpadded, minute two digits, one space, lowercase
meridiem). -/
def renderTok (h m : Nat) (pm : Bool) : Str :=
  natToStr h ++ ':' :: (padStart2 (natToStr m) ++ ' ' :: (if pm then ['p', 'm'] else ['a', 'm']))

/-- The normalized `"HH:MM"` label produced for hour-of-day `hr` and
minute `mn` (both zero-padded to two digits). -/
def timeLabel (hr mn : Nat) : Str :=
  padStart2 (natToStr hr) ++ ':' :: padStart2 (natToStr mn)

/-- Course label used by the concrete test environments. -/
def cn0 : Str := "K".toList

/-- Window start used by the concrete test environments. -/
def ws0 : Str := "07:00".toList

/-- Window end used by the concrete test environments. -/
def we0 : Str := "09:00".toList

/-- A listing row whose slot qualifies under `cn0`/`ws0`/`we0`. -/
def row0 : Row := ⟨"K 7:30 am".toList, 1, 5⟩

/-- The hit `findCandidates` extracts from `row0`. -/
def hit0 : Hit := ⟨"07:30".toList, 5, "K 7:30 am".toList⟩

/-- Attempt outcomes where the first click loses the race and the
second click verifies: the slot is secured on the retry. -/
def attRetryWin : Nat → AttemptResult :=
  fun i => if i = 0 then .lostRace else .secured

/-- Environment whose single date yields one qualifying slot that is
secured on the second committing click. -/
def envC1 : Nat → PassEnv :=
  fun _ => ⟨[⟨[row0], attRetryWin, 0⟩], 0⟩

/-- A pass with two target dates, each with a qualifying slot on which
every claim attempt loses the race; each date's search-and-claim cycle
costs 5 ticks and the jitter is 0. -/
def passC5 : PassEnv :=
  ⟨[⟨[row0], fun _ => .lostRace, 5⟩,
    ⟨[⟨"K 8:30 am".toList, 1, 6⟩], fun _ => .lostRace, 5⟩], 0⟩

/-- Environment running `passC5` on every pass. -/
def envC5 : Nat → PassEnv := fun _ => passC5

example : toMin ("07:00".toList) = some 420 := by decide
example : toMin ("".toList) = none := by decide
example : toMin ("7".toList) = none := by decide
example : normalizeTimeLabel ("12:00 am".toList) = "00:00".toList := by decide
example : normalizeTimeLabel ("12:00 pm".toList) = "12:00".toList := by decide
example : normalizeTimeLabel ("11:59 PM".toList) = "23:59".toList := by decide
example : normalizeTimeLabel ("x 7:30 am y".toList) = "07:30".toList := by decide
example : normalizeTimeLabel ("oops".toList) = [] := by decide
example : timeInRange ("07:30".toList) ("07:00".toList) ("09:00".toList) = true := by decide
example : timeInRange ("06:59".toList) ("07:00".toList) ("09:00".toList) = false := by decide

example : nextWeekendDates ["Sat".toList] 0 = [6, 13] := by decide
example : nextWeekendDates ["Sat".toList, "Sun".toList] 0 = [0, 6] := by decide
example :
    findCandidates ("K".toList) ("07:00".toList) ("09:00".toList)
      [⟨"K 7:30 am".toList, 1, 5⟩] = [⟨"07:30".toList, 5, "K 7:30 am".toList⟩] := by decide
example :
    (findCandidates ("K".toList) ("06:00".toList) ("09:00".toList)
      [⟨"K 7:00 am".toList, 1, 0⟩, ⟨"K 6:99 am".toList, 1, 1⟩]).map Hit.t =
      ["06:99".toList, "07:00".toList] := by decide
example : (claimSeq 7 fun _ => .lostRace) = ⟨3, false, [7, 7, 7]⟩ := by decide
example :
    (claimSeq 7 fun i => if i = 0 then .lostRace else .secured) = ⟨2, true, [7, 7]⟩ := by
  decide

/-! ### Helper lemmas -/

theorem claimSeqGo_clicks_le (h : Nat) (att : Nat → AttemptResult) :
    ∀ fuel i, (claimSeqGo h att fuel i).clicks ≤ fuel := by
  intro fuel
  induction fuel with
  | zero => intro i; simp [claimSeqGo]
  | succ n ih =>
    intro i
    simp only [claimSeqGo]
    cases att i with
    | secured => simp
    | lostRace => simpa using ih (i + 1)
    | threw => exact Nat.le_succ_of_le (ih (i + 1))

theorem claimSeqGo_added_pos (h : Nat) (att : Nat → AttemptResult) :
    ∀ fuel i, (claimSeqGo h att fuel i).added = true →
      1 ≤ (claimSeqGo h att fuel i).clicks := by
  intro fuel
  induction fuel with
  | zero => intro i hadd; simp [claimSeqGo] at hadd
  | succ n ih =>
    intro i hadd
    simp only [claimSeqGo] at hadd ⊢
    cases hai : att i with
    | secured => simp [hai]
    | lostRace => simp [hai]
    | threw =>
      simp only [hai] at hadd ⊢
      exact ih (i + 1) hadd

theorem claimSeqGo_not_secured (h : Nat) (att : Nat → AttemptResult)
    (hns : ∀ i, att i ≠ .secured) :
    ∀ fuel i, (claimSeqGo h att fuel i).added = false := by
  intro fuel
  induction fuel with
  | zero => intro i; simp [claimSeqGo]
  | succ n ih =>
    intro i
    simp only [claimSeqGo]
    cases hai : att i with
    | secured => exact absurd hai (hns i)
    | lostRace => exact ih (i + 1)
    | threw => exact ih (i + 1)

theorem claimSeqGo_handleUses (h : Nat) (att : Nat → AttemptResult) :
    ∀ fuel i x, x ∈ (claimSeqGo h att fuel i).handleUses → x = h := by
  intro fuel
  induction fuel with
  | zero => intro i x hx; simp [claimSeqGo] at hx
  | succ n ih =>
    intro i x hx
    simp only [claimSeqGo] at hx
    cases hai : att i with
    | secured => simp only [hai] at hx; simpa using hx
    | lostRace =>
      simp only [hai] at hx
      rcases List.mem_cons.mp hx with h' | h'
      · exact h'
      · exact ih (i + 1) x h'
    | threw =>
      simp only [hai] at hx
      rcases List.mem_cons.mp hx with h' | h'
      · exact h'
      · exact ih (i + 1) x h'

theorem processPass_booked_pos (cn ws we : Str) :
    ∀ des : List DateEnv, (processPass cn ws we des).1 = true →
      1 ≤ (processPass cn ws we des).2 := by
  intro des
  induction des with
  | nil => intro hb; simp [processPass] at hb
  | cons de rest ih =>
    intro hb
    cases hfc : findCandidates cn ws we de.rows with
    | nil =>
      simp only [processPass, hfc] at hb ⊢
      exact ih hb
    | cons best tl =>
      simp only [processPass, hfc] at hb ⊢
      by_cases hadd : (claimSeq best.addBtn de.att).added = true
      · simp only [hadd, if_true]
        exact claimSeqGo_added_pos _ _ 3 0 hadd
      · simp only [Bool.not_eq_true] at hadd
        simp only [hadd, Bool.false_eq_true, if_false] at hb ⊢
        have := ih hb
        omega

theorem pollGo_booked (cn ws we : Str) (env : Nat → PassEnv) (budget : Nat) :
    ∀ fuel p elapsed acc,
      (pollGo cn ws we env budget fuel p elapsed acc).booked = true →
        (pollGo cn ws we env budget fuel p elapsed acc).beeps = 1 ∧
        acc + 1 ≤ (pollGo cn ws we env budget fuel p elapsed acc).clicks := by
  intro fuel
  induction fuel with
  | zero => intro p elapsed acc hb; simp [pollGo] at hb
  | succ n ih =>
    intro p elapsed acc hb
    simp only [pollGo] at hb ⊢
    by_cases hdl : budget ≤ elapsed
    · simp [hdl] at hb
    · simp only [hdl, if_false] at hb ⊢
      by_cases hp : (processPass cn ws we (env p).dates).1 = true
      · simp only [hp, if_true] at hb ⊢
        have := processPass_booked_pos cn ws we (env p).dates hp
        exact ⟨by simp, by simp; omega⟩
      · simp only [Bool.not_eq_true] at hp
        simp only [hp, Bool.false_eq_true, if_false] at hb ⊢
        have := ih (p + 1) (elapsed + passCost (env p))
          (acc + (processPass cn ws we (env p).dates).2) hb
        exact ⟨this.1, by omega⟩

theorem passCost_pos (pe : PassEnv) : 1 ≤ passCost pe := by
  simp only [passCost]; omega

theorem spentThrough_ge (env : Nat → PassEnv) : ∀ q, q ≤ spentThrough env q := by
  intro q
  induction q with
  | zero => simp [spentThrough]
  | succ n ih =>
    have := passCost_pos (env n)
    simp only [spentThrough]
    omega

theorem pollGo_exhausted (cn ws we : Str) (env : Nat → PassEnv) (budget : Nat)
    (hns : ∀ q, (processPass cn ws we (env q).dates).1 = false) :
    ∀ fuel p elapsed acc,
      elapsed = spentThrough env p →
      (∀ q < p, spentThrough env q < budget) →
      (pollGo cn ws we env budget fuel p elapsed acc).booked = false ∧
      (pollGo cn ws we env budget fuel p elapsed acc).beeps = 0 ∧
      (pollGo cn ws we env budget fuel p elapsed acc).exhaustedMsg = true ∧
      (pollGo cn ws we env budget fuel p elapsed acc).elapsed =
        spentThrough env (pollGo cn ws we env budget fuel p elapsed acc).passes ∧
      (∀ q < (pollGo cn ws we env budget fuel p elapsed acc).passes,
        spentThrough env q < budget) := by
  intro fuel
  induction fuel with
  | zero =>
    intro p elapsed acc hsp hq
    exact ⟨rfl, rfl, rfl, hsp, hq⟩
  | succ n ih =>
    intro p elapsed acc hsp hq
    simp only [pollGo]
    by_cases hdl : budget ≤ elapsed
    · simp only [hdl, if_true]
      exact ⟨by simp, by simp, by simp, by simpa using hsp, by simpa using hq⟩
    · simp only [hdl, if_false, hns p, Bool.false_eq_true, if_false]
      refine ih (p + 1) (elapsed + passCost (env p)) _ ?_ ?_
      · simp only [spentThrough]; omega
      · intro q hq'
        rcases Nat.lt_succ_iff_lt_or_eq.mp hq' with h' | h'
        · exact hq q h'
        · subst h'; omega

theorem lexLe_refl : ∀ s : Str, lexLe s s = true := by
  intro s
  induction s with
  | nil => rfl
  | cons a t ih => simp [lexLe, ih]

theorem lexLe_total : ∀ a b : Str, lexLe a b = true ∨ lexLe b a = true := by
  intro a
  induction a with
  | nil => intro b; left; rfl
  | cons x xs ih =>
    intro b
    cases b with
    | nil => right; rfl
    | cons y ys =>
      simp only [lexLe]
      by_cases hxy : x.toNat = y.toNat
      · rw [if_pos hxy, if_pos hxy.symm]
        exact ih ys
      · have hyx : ¬ y.toNat = x.toNat := fun h => hxy h.symm
        rw [if_neg hxy, if_neg hyx]
        simp only [decide_eq_true_eq]
        omega

theorem lexLe_trans : ∀ a b c : Str,
    lexLe a b = true → lexLe b c = true → lexLe a c = true := by
  intro a
  induction a with
  | nil => intro b c _ _; rfl
  | cons x xs ih =>
    intro b c hab hbc
    cases b with
    | nil => simp [lexLe] at hab
    | cons y ys =>
      cases c with
      | nil => simp [lexLe] at hbc
      | cons z zs =>
        simp only [lexLe] at hab hbc ⊢
        by_cases hxy : x.toNat = y.toNat
        · by_cases hyz : y.toNat = z.toNat
          · have hxz : x.toNat = z.toNat := hxy.trans hyz
            rw [if_pos hxy] at hab
            rw [if_pos hyz] at hbc
            rw [if_pos hxz]
            exact ih ys zs hab hbc
          · have hxz : ¬ x.toNat = z.toNat := by omega
            rw [if_neg hyz] at hbc
            rw [if_neg hxz]
            simp only [decide_eq_true_eq] at hbc ⊢
            omega
        · by_cases hyz : y.toNat = z.toNat
          · have hxz : ¬ x.toNat = z.toNat := by omega
            rw [if_neg hxy] at hab
            rw [if_neg hxz]
            simp only [decide_eq_true_eq] at hab ⊢
            omega
          · rw [if_neg hxy] at hab
            rw [if_neg hyz] at hbc
            simp only [decide_eq_true_eq] at hab hbc
            have hxz : ¬ x.toNat = z.toNat := by omega
            rw [if_neg hxz]
            simp only [decide_eq_true_eq]
            omega

instance : IsTotal Hit hitLe := ⟨fun a b => lexLe_total a.t b.t⟩

instance : IsTrans Hit hitLe := ⟨fun _ _ _ => lexLe_trans _ _ _⟩

theorem filter_orderedInsert_of_eq (k : Str) (a : Hit) (ha : a.t = k) :
    ∀ l : List Hit,
      (List.orderedInsert hitLe a l).filter (fun x => decide (x.t = k)) =
        a :: l.filter (fun x => decide (x.t = k)) := by
  intro l
  induction l with
  | nil => simp [List.orderedInsert, ha]
  | cons b t ih =>
    by_cases hab : hitLe a b
    · simp [List.orderedInsert, hab, ha]
    · have hbk : ¬ b.t = k := by
        intro hbk
        exact hab (by simpa [hitLe, ha, hbk] using lexLe_refl k)
      simp [List.orderedInsert, hab, hbk, ih]

theorem filter_orderedInsert_of_ne (k : Str) (a : Hit) (ha : ¬ a.t = k) :
    ∀ l : List Hit,
      (List.orderedInsert hitLe a l).filter (fun x => decide (x.t = k)) =
        l.filter (fun x => decide (x.t = k)) := by
  intro l
  induction l with
  | nil => simp [List.orderedInsert, ha]
  | cons b t ih =>
    by_cases hab : hitLe a b
    · simp [List.orderedInsert, hab, ha]
    · simp only [List.orderedInsert, hab, if_false, List.filter_cons, ih]

theorem filter_insertionSort (k : Str) :
    ∀ l : List Hit,
      (List.insertionSort hitLe l).filter (fun x => decide (x.t = k)) =
        l.filter (fun x => decide (x.t = k)) := by
  intro l
  induction l with
  | nil => rfl
  | cons a t ih =>
    simp only [List.insertionSort]
    by_cases ha : a.t = k
    · rw [filter_orderedInsert_of_eq k a ha, ih]
      simp [ha]
    · rw [filter_orderedInsert_of_ne k a ha, ih]
      simp [ha]

theorem padStart2_natToStr : ∀ n < 100,
    padStart2 (natToStr n) = [Nat.digitChar (n / 10), Nat.digitChar (n % 10)] := by
  decide

theorem digitChar_toNat : ∀ a < 10, (Nat.digitChar a).toNat = 48 + a := by
  decide

theorem toMin_timeLabel : ∀ hr < 24, ∀ mn < 60,
    toMin (timeLabel hr mn) = some (hr * 60 + mn) := by
  decide

theorem lexLe_timeLabel (hr1 mn1 hr2 mn2 : Nat)
    (hh1 : hr1 < 24) (hm1 : mn1 < 60) (hh2 : hr2 < 24) (hm2 : mn2 < 60) :
    lexLe (timeLabel hr1 mn1) (timeLabel hr2 mn2) = true ↔
      hr1 * 60 + mn1 ≤ hr2 * 60 + mn2 := by
  have e1 := padStart2_natToStr hr1 (by omega)
  have e2 := padStart2_natToStr mn1 (by omega)
  have e3 := padStart2_natToStr hr2 (by omega)
  have e4 := padStart2_natToStr mn2 (by omega)
  have d1 := digitChar_toNat (hr1 / 10) (by omega)
  have d2 := digitChar_toNat (hr1 % 10) (by omega)
  have d3 := digitChar_toNat (mn1 / 10) (by omega)
  have d4 := digitChar_toNat (mn1 % 10) (by omega)
  have d5 := digitChar_toNat (hr2 / 10) (by omega)
  have d6 := digitChar_toNat (hr2 % 10) (by omega)
  have d7 := digitChar_toNat (mn2 / 10) (by omega)
  have d8 := digitChar_toNat (mn2 % 10) (by omega)
  simp only [timeLabel, e1, e2, e3, e4, List.cons_append, List.nil_append]
  simp only [lexLe, d1, d2, d3, d4, d5, d6, d7, d8]
  split_ifs <;> simp_all [decide_eq_true_eq] <;> omega

theorem int_toNat_max_zero (d : Int) : (max 0 d).toNat = d.toNat := by
  rcases le_total 0 d with h | h
  · rw [max_eq_right h]
  · rw [max_eq_left h]
    omega

theorem timeInRange_isSome (t s e : Str) (h : timeInRange t s e = true) :
    (toMin t).isSome = true := by
  unfold timeInRange at h
  rcases ht : toMin t with _ | v
  · rw [ht] at h
    cases toMin s <;> cases toMin e <;> simp at h
  · simp

theorem mem_collectHits_inRange (cn ws we : Str) :
    ∀ rows x, x ∈ collectHits cn ws we rows → timeInRange x.t ws we = true := by
  intro rows
  induction rows with
  | nil => intro x hx; simp [collectHits] at hx
  | cons r rest ih =>
    intro x hx
    simp only [collectHits] at hx
    split at hx
    · exact ih x hx
    · split at hx
      · exact ih x hx
      · split at hx
        · exact ih x hx
        · split at hx
          · exact ih x hx
          · split at hx
            · exact ih x hx
            · split at hx
              · next h4 _ =>
                rcases List.mem_cons.mp hx with rfl | hx'
                · simpa using h4
                · exact ih x hx'
              · exact ih x hx

/-! ### Claims -/

/-- C1, counterexample.  The claim says a successful run issues exactly
one committing claim action.  In the environment `envC1` the first
committing Add To Cart click lands but verification shows neither
success signal, so the loop clicks again; the second click verifies and
the run completes — a successful run with two committing clicks. -/
theorem claim1_counterexample :
    (pollLoop cn0 ws0 we0 envC1 10).booked = true ∧
    ¬ (pollLoop cn0 ws0 we0 envC1 10).clicks = 1 := by
  decide

/-- C1, amended: every successful run issues at least one committing
claim action (the final, successful retry sequence issues between 1 and
3), emits exactly one completion beep, and stops — no further clicks
follow the verified success, which the model captures by the claim loop
and poll loop returning at the securing branch. -/
theorem claim1_click_discipline :
    (∀ h att, (claimSeq h att).added = true →
      1 ≤ (claimSeq h att).clicks ∧ (claimSeq h att).clicks ≤ 3) ∧
    (∀ cn ws we env budget, (pollLoop cn ws we env budget).booked = true →
      (pollLoop cn ws we env budget).beeps = 1 ∧
      1 ≤ (pollLoop cn ws we env budget).clicks) := by
  constructor
  · intro h att hadd
    exact ⟨claimSeqGo_added_pos h att 3 0 hadd, claimSeqGo_clicks_le h att 3 0⟩
  · intro cn ws we env budget hb
    rw [pollLoop] at hb ⊢
    have h := pollGo_booked cn ws we env budget (budget + 1) 0 0 0 hb
    exact ⟨h.1, by omega⟩

/-- Witness for C1's amended theorem at concrete inputs. -/
theorem claim1_witness :
    (1 ≤ (claimSeq 7 attRetryWin).clicks ∧ (claimSeq 7 attRetryWin).clicks ≤ 3) ∧
    ((pollLoop cn0 ws0 we0 envC1 10).beeps = 1 ∧
      1 ≤ (pollLoop cn0 ws0 we0 envC1 10).clicks) :=
  ⟨claim1_click_discipline.1 7 attRetryWin (by decide),
   claim1_click_discipline.2 cn0 ws0 we0 envC1 10 (by decide)⟩

/-- C2, counterexample.  The claim says every retry re-resolves the
claim affordance fresh and the handle captured at extraction is never
reused across an attempt boundary.  In the code the retry loop clicks
`best.addBtn` — the very locator captured by `findCandidates` — on
every iteration: with every attempt losing the race, all three
attempts (including the two retries) use the captured handle 7. -/
theorem claim2_counterexample :
    (claimSeq 7 fun _ => AttemptResult.lostRace).handleUses = [7, 7, 7] := by
  decide

/-- C2, amended: every attempt of a claim sequence, retries included,
uses exactly the affordance handle captured at extraction time; the
handle is reused, never re-resolved from the current listing (freshness
of the underlying DOM node is delegated to the locator abstraction). -/
theorem claim2_handle_reuse :
    ∀ h att x, x ∈ (claimSeq h att).handleUses → x = h :=
  fun h att x hx => claimSeqGo_handleUses h att 3 0 x hx

/-- Witness for C2's amended theorem at concrete inputs. -/
theorem claim2_witness : (7 : Nat) = 7 :=
  claim2_handle_reuse 7 (fun _ => AttemptResult.lostRace) 7 (by decide)

/-- C3, counterexample.  The claim says the resolved dates are the next
occurrences of up to two distinct preferred weekdays.  With the single
preference `Sat` (a configuration the README documents), starting on a
Sunday (day 0), the code returns days 6 and 13 — the next two
Saturdays, i.e. two occurrences of the same weekday, not of distinct
weekdays. -/
theorem claim3_counterexample :
    nextWeekendDates ["Sat".toList] 0 = [6, 13] ∧ 6 % 7 = 13 % 7 := by
  decide

/-- C3, amended: candidate-date resolution returns at most 2 dates,
each within `[now, now + 14)`, in chronological order, each matching a
preferred weekday, and they are the chronologically first such matches
(every other matching day in the lookahead is later than all returned
dates) — the same weekday may repeat when the preferences match fewer
than two distinct weekdays in the window; a forced date yields exactly
that single date. -/
theorem claim3_candidate_dates :
    ∀ prefs now,
      (nextWeekendDates prefs now).length ≤ 2 ∧
      (∀ d ∈ nextWeekendDates prefs now,
        now ≤ d ∧ d < now + 14 ∧ dayMatches prefs d = true) ∧
      (nextWeekendDates prefs now).Pairwise (· < ·) ∧
      (∀ d, now ≤ d → d < now + 14 → dayMatches prefs d = true →
        d ∉ nextWeekendDates prefs now →
        ∀ r ∈ nextWeekendDates prefs now, r < d) ∧
      (∀ f, targets (some f) prefs now = [f]) := by
  intro prefs now
  have hpw : (((List.range 14).map fun i => now + i).filter
      fun d => dayMatches prefs d).Pairwise (· < ·) :=
    (((List.pairwise_lt_range 14).map _ fun a b h => by omega).filter _)
  refine ⟨?_, ?_, ?_, ?_, fun f => rfl⟩
  · rw [nextWeekendDates, List.length_take]
    omega
  · intro d hd
    have hdL := (List.take_sublist 2 _).subset hd
    have hmatch := (List.mem_filter.mp hdL).2
    obtain ⟨i, hi, rfl⟩ := List.mem_map.mp (List.mem_filter.mp hdL).1
    have := List.mem_range.mp hi
    exact ⟨by omega, by omega, hmatch⟩
  · exact hpw.take
  · intro d hd0 hd14 hdm hdnot r hr
    have hdL : d ∈ ((List.range 14).map fun i => now + i).filter
        fun x => dayMatches prefs x := by
      refine List.mem_filter.mpr ⟨?_, hdm⟩
      exact List.mem_map.mpr ⟨d - now, List.mem_range.mpr (by omega), by omega⟩
    rw [← List.take_append_drop 2 (((List.range 14).map fun i => now + i).filter
      fun x => dayMatches prefs x)] at hdL
    rcases List.mem_append.mp hdL with hin | hdrop
    · exact absurd hin hdnot
    · exact hpw.rel_of_mem_take_of_mem_drop hr hdrop

/-- Witness for C3's amended theorem at concrete inputs. -/
theorem claim3_witness :
    (0 ≤ 6 ∧ 6 < 0 + 14 ∧ dayMatches ["Sat".toList, "Sun".toList] 6 = true) ∧
    (0 : Nat) < 7 ∧
    targets (some 42) ["Sat".toList, "Sun".toList] 0 = [42] :=
  ⟨(claim3_candidate_dates ["Sat".toList, "Sun".toList] 0).2.1 6 (by decide),
   (claim3_candidate_dates ["Sat".toList, "Sun".toList] 0).2.2.2.1 7 (by decide)
     (by decide) (by decide) (by decide) 0 (by decide),
   (claim3_candidate_dates ["Sat".toList, "Sun".toList] 0).2.2.2.2 42⟩

/-- C4: the committing action is attempted at most 3 times per claim
sequence, and when no attempt of the sequence verifies success the pass
simply moves on to the next target date: the pass outcome over
`de :: rest` equals the outcome over `rest`.  (The loop is structurally
bounded — the model's claim sequence is total with fuel 3.) -/
theorem claim4_retry_bound :
    (∀ h att, (claimSeq h att).clicks ≤ 3) ∧
    (∀ cn ws we (de : DateEnv) rest,
      (∀ i, de.att i ≠ AttemptResult.secured) →
      (processPass cn ws we (de :: rest)).1 = (processPass cn ws we rest).1) := by
  constructor
  · intro h att
    exact claimSeqGo_clicks_le h att 3 0
  · intro cn ws we de rest hns
    cases hfc : findCandidates cn ws we de.rows with
    | nil => simp [processPass, hfc]
    | cons best tl =>
      have hadd : (claimSeq best.addBtn de.att).added = false :=
        claimSeqGo_not_secured best.addBtn de.att hns 3 0
      simp [processPass, hfc, hadd]

/-- Witness for C4 at concrete inputs. -/
theorem claim4_witness :
    (claimSeq 7 fun _ => AttemptResult.lostRace).clicks ≤ 3 ∧
    (processPass cn0 ws0 we0 [⟨[row0], fun _ => AttemptResult.lostRace, 5⟩]).1 =
      (processPass cn0 ws0 we0 []).1 :=
  ⟨claim4_retry_bound.1 7 _,
   claim4_retry_bound.2 cn0 ws0 we0 ⟨[row0], fun _ => AttemptResult.lostRace, 5⟩ []
     (fun _ => (by decide : AttemptResult.lostRace ≠ AttemptResult.secured))⟩

/-- C5, counterexample.  The claim bounds the budget overshoot by one
claim-attempt cycle.  In `envC5` each pass processes two target dates
(each date's search-and-claim cycle costs 5 ticks); with a budget of 1
tick the deadline test at the top of the second pass stops the run at
11 ticks — an overshoot of 10 ticks, strictly more than one
claim-attempt cycle's 5 ticks, because a pass finishes all its dates
and its jittered delay before the deadline is re-checked. -/
theorem claim5_counterexample :
    (pollLoop cn0 ws0 we0 envC5 1).booked = false ∧
    (pollLoop cn0 ws0 we0 envC5 1).elapsed = 11 ∧
    ((envC5 0).dates.map DateEnv.cost) = [5, 5] ∧
    11 - 1 > 5 := by
  decide

/-- C5, amended: when no pass ever secures a slot the poll loop
terminates with the exhausted outcome (no beep, the "No matching tee
times found" message — a normal non-error result), the deadline is
checked at the top of every executed pass (each pass starts strictly
under budget), the number of passes is bounded by the budget, and the
overshoot past the budget is bounded by one full pass (all target
dates' search-and-claim cycles plus the jittered delay). -/
theorem claim5_budget_exhaustion :
    ∀ cn ws we env budget,
      (∀ q, (processPass cn ws we (env q).dates).1 = false) →
      (pollLoop cn ws we env budget).booked = false ∧
      (pollLoop cn ws we env budget).beeps = 0 ∧
      (pollLoop cn ws we env budget).exhaustedMsg = true ∧
      (pollLoop cn ws we env budget).passes ≤ budget ∧
      (∀ q < (pollLoop cn ws we env budget).passes, spentThrough env q < budget) ∧
      (pollLoop cn ws we env budget).elapsed <
        budget + passCost (env ((pollLoop cn ws we env budget).passes - 1)) := by
  intro cn ws we env budget hns
  obtain ⟨hb, hbe, hex, hel, hq⟩ :=
    pollGo_exhausted cn ws we env budget hns (budget + 1) 0 0 0 rfl (by omega)
  rw [pollLoop]
  refine ⟨hb, hbe, hex, ?_, hq, ?_⟩
  · rcases hp : (pollGo cn ws we env budget (budget + 1) 0 0 0).passes with _ | k
    · omega
    · have h1 : spentThrough env k < budget := hq k (by omega)
      have h2 := spentThrough_ge env k
      omega
  · rcases hp : (pollGo cn ws we env budget (budget + 1) 0 0 0).passes with _ | k
    · rw [hp] at hel
      simp only [spentThrough] at hel
      simp only [Nat.zero_sub]
      have := passCost_pos (env 0)
      omega
    · rw [hp] at hel
      simp only [spentThrough] at hel
      simp only [Nat.add_sub_cancel]
      have h1 : spentThrough env k < budget := hq k (by omega)
      omega

/-- Witness for C5's amended theorem at concrete inputs. -/
theorem claim5_witness :
    (pollLoop cn0 ws0 we0 envC5 1).exhaustedMsg = true ∧
    (pollLoop cn0 ws0 we0 envC5 1).passes ≤ 1 :=
  ⟨(claim5_budget_exhaustion cn0 ws0 we0 envC5 1 fun _ =>
      (by decide : (processPass cn0 ws0 we0 passC5.dates).1 = false)).2.2.1,
   (claim5_budget_exhaustion cn0 ws0 we0 envC5 1 fun _ =>
      (by decide : (processPass cn0 ws0 we0 passC5.dates).1 = false)).2.2.2.1⟩

/-- C6: the release-alignment wait runs exactly when the clamped
duration until the same day's 17:00 wall-clock instant in the
configured timezone is positive and under the 120-second ceiling;
equivalently, in terms of the raw clock, exactly when the target
instant (61 200 000 ms after midnight) has not yet passed and is less
than 120 000 ms away.  In particular the orchestrator proceeds
immediately both when the instant has passed (the clamp yields 0) and
when the wait would reach or exceed the ceiling. -/
theorem claim6_release_alignment :
    ∀ nowCTms : Nat,
      alignWaitApplies (msUntilCT 17 0 nowCTms) = true ↔
        nowCTms < 61200000 ∧ 61200000 - nowCTms < 120000 := by
  intro now
  simp only [msUntilCT, int_toNat_max_zero, alignWaitApplies, Bool.and_eq_true,
    decide_eq_true_eq]
  omega

/-- C7: for every well-formed 12-hour token `H:MM am|pm` with hour
1–12 and minute 0–59, `normalizeTimeLabel` produces the label whose
minute-of-day value is the correct 24-hour conversion, including the
boundary cases `12:00 am → 00:00`, `12:00 pm → 12:00` and
`11:59 pm → 23:59`. -/
theorem claim7_normalize_correct :
    (∀ h < 12, ∀ m < 60, ∀ pm : Bool,
      toMin (normalizeTimeLabel (renderTok (h + 1) m pm)) =
        some (((h + 1) % 12 + if pm then 12 else 0) * 60 + m)) ∧
    normalizeTimeLabel ("12:00 am".toList) = "00:00".toList ∧
    normalizeTimeLabel ("12:00 pm".toList) = "12:00".toList ∧
    normalizeTimeLabel ("11:59 pm".toList) = "23:59".toList := by
  exact ⟨by decide, by decide, by decide, by decide⟩

/-- Witness for C7 at a concrete token. -/
theorem claim7_witness :
    toMin (normalizeTimeLabel (renderTok 12 59 true)) = some 779 := by
  have h := claim7_normalize_correct.1 11 (by decide) 59 (by decide) true
  simpa using h

/-- C8: the window membership test is inclusive on both ends — for any
strings whose prefixes parse to minute values `vt`, `vs`, `ve` with
`vs ≤ ve`, membership holds exactly when `vs ≤ vt ≤ ve`, so a time
equal to either bound qualifies and a time one minute outside either
bound does not. -/
theorem claim8_inclusive_window :
    ∀ (t s e : Str) (vt vs ve : Nat),
      toMin t = some vt → toMin s = some vs → toMin e = some ve → vs ≤ ve →
      (timeInRange t s e = true ↔ vs ≤ vt ∧ vt ≤ ve) := by
  intro t s e vt vs ve h1 h2 h3 _
  unfold timeInRange
  rw [h1, h2, h3]
  simp

/-- Witness for C8: a slot exactly at the window start qualifies. -/
theorem claim8_witness :
    timeInRange ("07:00".toList) ("07:00".toList) ("09:00".toList) = true :=
  (claim8_inclusive_window _ _ _ 420 420 540 (by decide) (by decide) (by decide)
    (by decide)).mpr (by decide)

/-- C9, counterexample.  The claim says extraction output is ordered
ascending by time-of-day.  The qualifying entries carry the tokens
`7:00 am` (minute-of-day 420, listed first) and `6:99 am` — the regex
accepts any two digits as the minute group, so it normalizes to
`06:99`, minute-of-day 459.  The label sort puts `06:99` before
`07:00`, so the output is `[459, 420]`: not ascending by
time-of-day. -/
theorem claim9_counterexample :
    ((findCandidates cn0 ("06:00".toList) we0
        [⟨"K 7:00 am".toList, 1, 0⟩, ⟨"K 6:99 am".toList, 1, 1⟩]).map
      fun h => toMin h.t) = [some 459, some 420] ∧ 420 < 459 := by
  decide

/-- C9, amended: extraction output is always sorted by the normalized
label (the comparator's order) and the sort is stable — for every
label, the sublist of hits carrying that label is exactly the one
collected in listing order.  When every qualifying label is a real
clock time (`HH:MM` with hour < 24 and minute < 60 — always the case
for well-formed `H:MM am|pm` tokens), label order coincides with
minute-of-day order, so the output is ascending by time-of-day and
slots with equal time-of-day retain their relative listing order. -/
theorem claim9_sorted_stable :
    ∀ cn ws we rows,
      (findCandidates cn ws we rows).Pairwise hitLe ∧
      (∀ k, (findCandidates cn ws we rows).filter (fun x => decide (x.t = k)) =
        (collectHits cn ws we rows).filter fun x => decide (x.t = k)) ∧
      ((∀ x ∈ collectHits cn ws we rows, ∃ hr < 24, ∃ mn < 60, x.t = timeLabel hr mn) →
        (findCandidates cn ws we rows).Pairwise
            (fun a b => (toMin a.t).getD 0 ≤ (toMin b.t).getD 0) ∧
        (∀ v : Nat,
          (findCandidates cn ws we rows).filter
              (fun x => decide ((toMin x.t).getD 0 = v)) =
            (collectHits cn ws we rows).filter
              fun x => decide ((toMin x.t).getD 0 = v))) := by
  intro cn ws we rows
  refine ⟨List.sorted_insertionSort hitLe _, fun k => filter_insertionSort k _,
    fun hcan => ⟨?_, ?_⟩⟩
  · have hs : (findCandidates cn ws we rows).Pairwise hitLe :=
      List.sorted_insertionSort hitLe _
    refine hs.imp_of_mem ?_
    intro a b ha hb hab
    have ha' : a ∈ collectHits cn ws we rows := by
      simpa [findCandidates, List.mem_insertionSort] using ha
    have hb' : b ∈ collectHits cn ws we rows := by
      simpa [findCandidates, List.mem_insertionSort] using hb
    obtain ⟨hra, hhra, mna, hmna, hta⟩ := hcan a ha'
    obtain ⟨hrb, hhrb, mnb, hmnb, htb⟩ := hcan b hb'
    rw [hitLe, hta, htb] at hab
    have hle := (lexLe_timeLabel hra mna hrb mnb hhra hmna hhrb hmnb).mp hab
    rw [hta, htb, toMin_timeLabel hra hhra mna hmna, toMin_timeLabel hrb hhrb mnb hmnb]
    simpa using hle
  · intro v
    by_cases hv : v < 1440
    · have hcong : ∀ x ∈ collectHits cn ws we rows,
          (decide ((toMin x.t).getD 0 = v)) =
            decide (x.t = timeLabel (v / 60) (v % 60)) := by
        intro x hx
        obtain ⟨hr, hhr, mn, hmn, ht⟩ := hcan x hx
        rw [ht, toMin_timeLabel hr hhr mn hmn]
        simp only [Option.getD_some]
        rw [decide_eq_decide]
        constructor
        · rintro rfl
          have e1 : hr = (hr * 60 + mn) / 60 := by omega
          have e2 : mn = (hr * 60 + mn) % 60 := by omega
          rw [← e1, ← e2]
        · intro heq
          have h1 := toMin_timeLabel hr hhr mn hmn
          have h2 := toMin_timeLabel (v / 60) (by omega) (v % 60) (by omega)
          rw [heq, h2] at h1
          have := Option.some.inj h1
          omega
      have hcong' : ∀ x ∈ findCandidates cn ws we rows,
          (decide ((toMin x.t).getD 0 = v)) =
            decide (x.t = timeLabel (v / 60) (v % 60)) := by
        intro x hx
        refine hcong x ?_
        simpa [findCandidates, List.mem_insertionSort] using hx
      rw [List.filter_congr hcong', List.filter_congr hcong]
      exact filter_insertionSort (timeLabel (v / 60) (v % 60)) _
    · have hnone : ∀ x ∈ collectHits cn ws we rows,
          ¬ ((fun x => decide ((toMin x.t).getD 0 = v)) x = true) := by
        intro x hx
        obtain ⟨hr, hhr, mn, hmn, ht⟩ := hcan x hx
        simp only [decide_eq_true_eq]
        rw [ht, toMin_timeLabel hr hhr mn hmn]
        simp only [Option.getD_some]
        omega
      have hnone' : ∀ x ∈ findCandidates cn ws we rows,
          ¬ ((fun x => decide ((toMin x.t).getD 0 = v)) x = true) := by
        intro x hx
        refine hnone x ?_
        simpa [findCandidates, List.mem_insertionSort] using hx
      rw [List.filter_eq_nil_iff.mpr hnone', List.filter_eq_nil_iff.mpr hnone]

/-- Witness for C9's amended theorem at a concrete snapshot. -/
theorem claim9_witness :
    (findCandidates cn0 ws0 we0 [row0]).Pairwise
      (fun a b => (toMin a.t).getD 0 ≤ (toMin b.t).getD 0) :=
  ((claim9_sorted_stable cn0 ws0 we0 [row0]).2.2 fun x hx => by
    have hcol : collectHits cn0 ws0 we0 [row0] = [hit0] := by decide
    rw [hcol] at hx
    rcases List.mem_singleton.mp hx with rfl
    exact ⟨7, by omega, 30, by omega, by decide⟩).1

/-- C10: JS `NaN` propagation makes the window test reject anything
unparsable — whenever `toMin` yields `NaN` (`none`) for the time
string, `timeInRange` is false for every window — and consequently
every hit that extraction outputs carries a label that parsed
successfully and lies inside the configured window (a listing entry
whose token fails to normalize is filtered out, never an error; the
extraction pipeline is a total function). -/
theorem claim10_malformed_safe :
    (∀ t s e : Str, toMin t = none → timeInRange t s e = false) ∧
    (∀ cn ws we rows x, x ∈ findCandidates cn ws we rows →
      (toMin x.t).isSome = true ∧ timeInRange x.t ws we = true) := by
  constructor
  · intro t s e ht
    unfold timeInRange
    rw [ht]
  · intro cn ws we rows x hx
    have hx' : x ∈ collectHits cn ws we rows := by
      simpa [findCandidates, List.mem_insertionSort] using hx
    have hin := mem_collectHits_inRange cn ws we rows x hx'
    exact ⟨timeInRange_isSome x.t ws we hin, hin⟩

/-- Witness for C10 at concrete inputs: the empty string (an entry with
no recognizable time token normalizes to it) fails every window, and
the single hit of a concrete snapshot is parsed and in-window. -/
theorem claim10_witness :
    timeInRange ("".toList) ws0 we0 = false ∧
    ((toMin (Hit.t hit0)).isSome = true ∧ timeInRange (Hit.t hit0) ws0 we0 = true) :=
  ⟨claim10_malformed_safe.1 ("".toList) ws0 we0 (by decide),
   claim10_malformed_safe.2 cn0 ws0 we0 [row0] hit0 (by decide)⟩

end TeeTime
